import Mathlib

/-!
Verification of the tag catalog and query engine of the
lambda-notification repository.  The definitions below are shallow
embeddings of the handlers in src/lambda_tagging_function.py; the
theorems settle the frozen claims about that code.
-/

namespace BirdTag

/-!
## Python string primitives

The handlers manipulate Python strings with strip, split, startswith,
endswith, lower, isdigit and int conversion.  A Python string is modelled
by the Lean String and every operation is implemented over the underlying
character list, so that all definitions evaluate by kernel reduction.
-/

/-- Remove sep as a literal leading segment of a character list, returning
the remainder when the list begins with sep. -/
def dropPre : List Char → List Char → Option (List Char)
  | [], rest => some rest
  | _ :: _, [] => none
  | p :: ps, c :: cs => if c = p then dropPre ps cs else none

/-- Fuel-driven left-to-right split on a nonempty separator, mirroring the
scan performed by the Python split method.  The fuel is always at least the
length of the input on the wrapped calls, so the fuel-exhausted branch is
never reached there. -/
def splitAcc (sep : List Char) : Nat → List Char → List Char → List (List Char)
  | _, acc, [] => [acc.reverse]
  | 0, acc, s => [acc.reverse ++ s]
  | Nat.succ n, acc, c :: cs =>
    match dropPre sep (c :: cs) with
    | some rest => acc.reverse :: splitAcc sep n [] rest
    | none => splitAcc sep n (c :: acc) cs

/-- Python split(sep) for a nonempty separator. -/
def pySplit (s sep : String) : List String :=
  (splitAcc sep.toList (s.toList.length + 1) [] s.toList).map String.mk

/-- Python split(sep, 1): split at the first occurrence only; none when the
separator does not occur, which is also the Python membership test. -/
def splitFirstAux (sep : List Char) : List Char → List Char → Option (List Char × List Char)
  | _, [] => none
  | acc, c :: cs =>
    match dropPre sep (c :: cs) with
    | some rest => some (acc.reverse, rest)
    | none => splitFirstAux sep (c :: acc) cs

/-- String wrapper of splitFirstAux. -/
def splitFirstStr (s sep : String) : Option (String × String) :=
  match splitFirstAux sep.toList [] s.toList with
  | some (a, b) => some (String.mk a, String.mk b)
  | none => none

/-- Python strip over ASCII whitespace. -/
def pyStrip (s : String) : String :=
  String.mk (((s.toList.dropWhile Char.isWhitespace).reverse.dropWhile Char.isWhitespace).reverse)

/-- Python startswith on a literal. -/
def strStartsWith (s pre2 : String) : Bool :=
  (dropPre pre2.toList s.toList).isSome

/-- Python endswith on a literal. -/
def strEndsWith (s suf : String) : Bool :=
  (dropPre suf.toList.reverse s.toList.reverse).isSome

/-- Python lower, restricted to ASCII letters. -/
def pyLower (s : String) : String :=
  String.mk (s.toList.map Char.toLower)

/-- Python isdigit over ASCII digits: nonempty and all digits. -/
def pyIsDigitStr (s : String) : Bool :=
  !s.toList.isEmpty && s.toList.all Char.isDigit

/-- Numeric value of an ASCII digit string. -/
def digitsToNat (l : List Char) : Nat :=
  l.foldl (fun a c => a * 10 + (c.toNat - 48)) 0

/-- Python int(s) on an already stripped string: optional sign, then at
least one digit; none models the ValueError path. -/
def pyIntOfString (s : String) : Option Int :=
  match s.toList with
  | [] => none
  | c :: rest =>
    if c = '-' then
      if !rest.isEmpty && rest.all Char.isDigit then some (-(digitsToNat rest : Int)) else none
    else if c = '+' then
      if !rest.isEmpty && rest.all Char.isDigit then some ((digitsToNat rest : Int)) else none
    else
      if (c :: rest).all Char.isDigit then some ((digitsToNat (c :: rest) : Int)) else none

/-- Membership test of a string in a list, the model of the Python in
operator on sets and lists of strings. -/
def memStr (x : String) (l : List String) : Bool :=
  l.any (fun y => y == x)

/-!
## Python dict model

Tag mappings are Python dicts from strings.  They are modelled by
association lists; assignment replaces the value in place when the key is
present and appends otherwise, matching dict insertion order.
-/

/-- Python dict assignment: replace in place or append. -/
def dinsert {α : Type} (d : List (String × α)) (k : String) (v : α) : List (String × α) :=
  if d.any (fun p => p.1 == k) then
    d.map (fun p => if p.1 == k then (k, v) else p)
  else d ++ [(k, v)]

/-- Python dict get with default. -/
def dget {α : Type} (d : List (String × α)) (k : String) (dflt : α) : α :=
  match d.find? (fun p => p.1 == k) with
  | some p => p.2
  | none => dflt

/-- Python del on a dict key. -/
def dremove {α : Type} (d : List (String × α)) (k : String) : List (String × α) :=
  d.filter (fun p => !(p.1 == k))

/-- Python key membership in a dict. -/
def dmem {α : Type} (d : List (String × α)) (k : String) : Bool :=
  d.any (fun p => p.1 == k)

/-!
## Raw Python values and the tag sanitizer

sanitize_tags receives an arbitrary decoded JSON mapping, so keys and
values are modelled by a small inductive of the Python values the code
distinguishes: strings, ints, floats (finite, infinite or NaN), None and
anything else.
-/

/-- The shape of a Python float as far as the tagging code inspects it. -/
inductive PyFloat
  | finite (q : ℚ)
  | inf
  | negInf
  | nan
deriving DecidableEq

/-- A raw Python value as it can appear in a detector tag mapping. -/
inductive PyVal
  | str (s : String)
  | intv (n : Int)
  | floatv (f : PyFloat)
  | nullv
  | otherv
deriving DecidableEq

/-- isinstance(v, (int, float)). -/
def isNum : PyVal → Bool
  | PyVal.intv _ => true
  | PyVal.floatv _ => true
  | _ => false

/-- The v is None test. -/
def isNone : PyVal → Bool
  | PyVal.nullv => true
  | _ => false

/-- isinstance(v, float) together with v != v, the NaN test of
sanitize_tags. -/
def isNaNv : PyVal → Bool
  | PyVal.floatv PyFloat.nan => true
  | _ => false

/-- One iteration of the sanitize_tags loop (src/lambda_tagging_function.py
lines 79 to 85): keep the entry only when the key is a string and the value
is an int or float that is neither None nor NaN. -/
def sanStep (safe_tags : List (String × PyVal)) (kv : PyVal × PyVal) : List (String × PyVal) :=
  match kv.1 with
  | PyVal.str k =>
    if isNum kv.2 && !(isNone kv.2 || isNaNv kv.2) then dinsert safe_tags k kv.2
    else safe_tags
  | _ => safe_tags

/-- sanitize_tags from src/lambda_tagging_function.py. -/
def sanitize_tags (tags : List (PyVal × PyVal)) : List (String × PyVal) :=
  tags.foldl sanStep []

/-- Predicate taken from the words of claim C4 for comparison with the
code: the value is a non-negative finite number. -/
def specNonnegFinite : PyVal → Bool
  | PyVal.intv n => decide (0 ≤ n)
  | PyVal.floatv (PyFloat.finite q) => decide (0 ≤ q)
  | _ => false

/-!
### Dictionary lemmas
-/

theorem mem_dinsert {α : Type} (d : List (String × α)) (k : String) (v : α)
    (p : String × α) (hp : p ∈ dinsert d k v) : p = (k, v) ∨ p ∈ d := by
  unfold dinsert at hp
  by_cases h : d.any (fun q => q.1 == k) = true
  · simp only [h, if_true] at hp
    rcases List.mem_map.mp hp with ⟨q, hq, hfq⟩
    by_cases hk : (q.1 == k) = true
    · left
      rw [if_pos hk] at hfq
      exact hfq.symm
    · right
      rw [if_neg hk] at hfq
      exact hfq ▸ hq
  · simp only [h, if_false] at hp
    rcases List.mem_append.mp hp with h1 | h2
    · exact Or.inr h1
    · exact Or.inl (List.mem_singleton.mp h2)

theorem key_mem_dinsert_self {α : Type} (d : List (String × α)) (k : String) (v : α) :
    k ∈ (dinsert d k v).map Prod.fst := by
  unfold dinsert
  by_cases h : d.any (fun q => q.1 == k) = true
  · rw [if_pos h]
    rcases List.any_eq_true.mp h with ⟨q, hq, hqk⟩
    refine List.mem_map.mpr ⟨(k, v), ?_, rfl⟩
    exact List.mem_map.mpr ⟨q, hq, by rw [if_pos hqk]⟩
  · rw [if_neg h, List.map_append]
    exact List.mem_append.mpr (Or.inr (by simp))

theorem key_mem_dinsert_mono {α : Type} (d : List (String × α)) (k : String) (v : α)
    (x : String) (hx : x ∈ d.map Prod.fst) : x ∈ (dinsert d k v).map Prod.fst := by
  unfold dinsert
  by_cases h : d.any (fun q => q.1 == k) = true
  · rw [if_pos h]
    rcases List.mem_map.mp hx with ⟨q, hq, hqx⟩
    by_cases hk : (q.1 == k) = true
    · refine List.mem_map.mpr ⟨(k, v), ?_, ?_⟩
      · exact List.mem_map.mpr ⟨q, hq, by rw [if_pos hk]⟩
      · have hqk : q.1 = k := eq_of_beq hk
        show k = x
        rw [← hqx, hqk]
    · exact List.mem_map.mpr ⟨q, List.mem_map.mpr ⟨q, hq, by rw [if_neg hk]⟩, hqx⟩
  · rw [if_neg h, List.map_append]
    exact List.mem_append.mpr (Or.inl hx)

/-!
### Sanitizer lemmas
-/

theorem isNone_eq_false_of_isNum (v : PyVal) (h : isNum v = true) : isNone v = false := by
  cases v <;> simp [isNum, isNone] at *

theorem mem_sanStep (acc : List (String × PyVal)) (kv : PyVal × PyVal)
    (p : String × PyVal) (hp : p ∈ sanStep acc kv) :
    p ∈ acc ∨ (kv = (PyVal.str p.1, p.2) ∧ isNum p.2 = true ∧ isNaNv p.2 = false) := by
  rcases kv with ⟨k1, v1⟩
  cases k1 with
  | str k =>
    simp only [sanStep] at hp
    by_cases hg : (isNum v1 && !(isNone v1 || isNaNv v1)) = true
    · rw [if_pos hg] at hp
      rcases mem_dinsert acc k v1 p hp with h1 | h2
      · right
        have hnum : isNum v1 = true := by
          cases h1 : isNum v1
          · rw [h1] at hg; simp at hg
          · rfl
        have hnan : isNaNv v1 = false := by
          cases h2 : isNaNv v1
          · rfl
          · rw [h2] at hg; simp at hg
        subst h1
        exact ⟨rfl, hnum, hnan⟩
      · exact Or.inl h2
    · rw [if_neg hg] at hp
      exact Or.inl hp
  | intv n => simp only [sanStep] at hp; exact Or.inl hp
  | floatv f => simp only [sanStep] at hp; exact Or.inl hp
  | nullv => simp only [sanStep] at hp; exact Or.inl hp
  | otherv => simp only [sanStep] at hp; exact Or.inl hp

theorem keys_sanStep_mono (acc : List (String × PyVal)) (kv : PyVal × PyVal)
    (x : String) (hx : x ∈ acc.map Prod.fst) : x ∈ (sanStep acc kv).map Prod.fst := by
  rcases kv with ⟨k1, v1⟩
  cases k1 with
  | str k =>
    simp only [sanStep]
    by_cases hg : (isNum v1 && !(isNone v1 || isNaNv v1)) = true
    · rw [if_pos hg]
      exact key_mem_dinsert_mono acc k v1 x hx
    · rw [if_neg hg]
      exact hx
  | intv n => simpa only [sanStep] using hx
  | floatv f => simpa only [sanStep] using hx
  | nullv => simpa only [sanStep] using hx
  | otherv => simpa only [sanStep] using hx

theorem sanitize_sound_aux (l : List (PyVal × PyVal)) :
    ∀ (acc : List (String × PyVal)) (p : String × PyVal),
      p ∈ l.foldl sanStep acc →
      p ∈ acc ∨ ((PyVal.str p.1, p.2) ∈ l ∧ isNum p.2 = true ∧ isNaNv p.2 = false) := by
  induction l with
  | nil => intro acc p hp; exact Or.inl hp
  | cons kv rest ih =>
    intro acc p hp
    rw [List.foldl_cons] at hp
    rcases ih (sanStep acc kv) p hp with h1 | h2
    · rcases mem_sanStep acc kv p h1 with ha | hb
      · exact Or.inl ha
      · exact Or.inr ⟨by rw [← hb.1]; exact List.mem_cons_self kv rest, hb.2.1, hb.2.2⟩
    · exact Or.inr ⟨List.mem_cons_of_mem kv h2.1, h2.2⟩

theorem keys_foldl_sanStep_mono (l : List (PyVal × PyVal)) :
    ∀ (acc : List (String × PyVal)) (x : String),
      x ∈ acc.map Prod.fst → x ∈ (l.foldl sanStep acc).map Prod.fst := by
  induction l with
  | nil => intro acc x hx; exact hx
  | cons kv rest ih =>
    intro acc x hx
    rw [List.foldl_cons]
    exact ih (sanStep acc kv) x (keys_sanStep_mono acc kv x hx)

theorem sanitize_complete_aux (l : List (PyVal × PyVal)) :
    ∀ (acc : List (String × PyVal)) (kv : PyVal × PyVal), kv ∈ l →
      ∀ k : String, kv.1 = PyVal.str k → isNum kv.2 = true → isNaNv kv.2 = false →
      k ∈ (l.foldl sanStep acc).map Prod.fst := by
  induction l with
  | nil => intro acc kv hkv; exact absurd hkv (List.not_mem_nil kv)
  | cons hd rest ih =>
    intro acc kv hkv k hk hnum hnan
    rw [List.foldl_cons]
    rcases List.mem_cons.mp hkv with h1 | h2
    · subst h1
      refine keys_foldl_sanStep_mono rest (sanStep acc kv) k ?_
      rcases kv with ⟨k1, v1⟩
      simp only at hk
      subst hk
      simp only [sanStep]
      have hnone : isNone v1 = false := isNone_eq_false_of_isNum v1 hnum
      have hg : (isNum v1 && !(isNone v1 || isNaNv v1)) = true := by
        simp only at hnum hnan
        rw [hnum, hnone, hnan]
        rfl
      rw [if_pos hg]
      exact key_mem_dinsert_self acc k v1
    · exact ih (sanStep acc hd) kv h2 k hk hnum hnan

/-- C4: the tag sanitizer as implemented keeps every entry whose key is a
string and whose value is a number other than NaN, but it does not enforce
non-negativity or finiteness: it passes a negative integer and an infinite
float through unchanged, so the returned mapping can contain values that
are not non-negative finite numbers.  This counterexample refutes the
claimed value property at a concrete input. -/
theorem C4_counterexample :
    (sanitize_tags [(PyVal.str "a", PyVal.intv (-1)), (PyVal.str "b", PyVal.floatv PyFloat.inf)]).all
      (fun p => specNonnegFinite p.2) = false := by decide

/-- C4 (amended): for every raw input mapping, every entry of the sanitized
mapping stems from an input entry with a string key and a value that is a
number and not NaN, and conversely every such input entry contributes its
key to the output; values need not be non-negative or finite. -/
theorem C4_amended_sanitize (tags : List (PyVal × PyVal)) :
    (∀ p ∈ sanitize_tags tags,
        (PyVal.str p.1, p.2) ∈ tags ∧ isNum p.2 = true ∧ isNaNv p.2 = false) ∧
    (∀ kv ∈ tags, ∀ k : String, kv.1 = PyVal.str k → isNum kv.2 = true →
        isNaNv kv.2 = false → k ∈ (sanitize_tags tags).map Prod.fst) := by
  constructor
  · intro p hp
    rcases sanitize_sound_aux tags [] p hp with h1 | h2
    · exact absurd h1 (List.not_mem_nil p)
    · exact h2
  · intro kv hkv k hk hnum hnan
    exact sanitize_complete_aux tags [] kv hkv k hk hnum hnan

/-- Closed witness for the amended C4 theorem at a concrete mapping. -/
theorem C4_amended_sanitize_witness :
    (PyVal.str "crow", PyVal.intv 2) ∈ [(PyVal.str "crow", PyVal.intv 2), (PyVal.intv 7, PyVal.intv 1)] ∧
    "crow" ∈ (sanitize_tags [(PyVal.str "crow", PyVal.intv 2), (PyVal.intv 7, PyVal.intv 1)]).map Prod.fst := by
  refine ⟨by decide, ?_⟩
  exact (C4_amended_sanitize [(PyVal.str "crow", PyVal.intv 2), (PyVal.intv 7, PyVal.intv 1)]).2
    (PyVal.str "crow", PyVal.intv 2) (by decide) "crow" rfl (by decide) (by decide)

/-!
## Line-oriented parser of the file-driven scan

parse_content (src/lambda_tagging_function.py lines 56 to 76) first tries
a JSON parse; when that fails it falls back to the line parser modelled
here: every non-blank line not starting with a hash sign contributes one
tag and count pair, the count defaulting to 1 unless the text after the
first colon strips to a pure digit string.
-/

/-- One iteration of the fallback loop of parse_content, returning none
when the line is skipped. -/
def parseLine (line : String) : Option (String × Int) :=
  let l := pyStrip line
  if l.toList.isEmpty || strStartsWith l "#" then none
  else
    match splitFirstStr l ":" with
    | some (tag, countPart) =>
      some (pyStrip tag,
        if pyIsDigitStr (pyStrip countPart) then ((digitsToNat (pyStrip countPart).toList : Int))
        else 1)
    | none => some (pyStrip l, 1)

/-- The fallback branch of parse_content: strip the content, split it into
lines, parse each line, and return none when nothing was collected. -/
def parseLinesContent (content : String) : Option (List (String × Int)) :=
  let tags := (pySplit (pyStrip content) "\n").filterMap parseLine
  if tags.isEmpty then none else some tags

/-- C9: in the line-oriented parser of the file-driven scan, every
non-blank, non-comment line of the form tag:count whose count part is not a
pure digit string is not rejected: the line is accepted and its count
silently defaults to 1. -/
theorem C9_line_default_count (line tag countPart : String)
    (h1 : (pyStrip line).toList.isEmpty = false)
    (h2 : strStartsWith (pyStrip line) "#" = false)
    (h3 : splitFirstStr (pyStrip line) ":" = some (tag, countPart))
    (h4 : pyIsDigitStr (pyStrip countPart) = false) :
    parseLine line = some (pyStrip tag, 1) := by
  simp only [parseLine]
  rw [show ((pyStrip line).toList.isEmpty || strStartsWith (pyStrip line) "#") = false by
        rw [h1, h2]; rfl, h3]
  simp [h4]

/-- Closed witness: the line crow:-3 has a negative count part, which is
not a pure digit string, and parses to the tag crow with count 1. -/
theorem C9_line_default_count_witness :
    parseLine "crow:-3" = some (pyStrip "crow", 1) :=
  C9_line_default_count "crow:-3" "crow" "-3" (by decide) (by decide) (by decide) (by decide)

/-!
## Deletion engine

handle_delete_files (src/lambda_tagging_function.py lines 681 to 759)
walks the list of URLs; a URL containing the https bucket base resolves to
the text after its last occurrence, a URL starting with the s3 scheme
resolves to the text after the last occurrence of the s3 bucket base, and
any other URL is skipped.  The blob delete and the catalog-record delete
are external effects modelled by success oracles keyed by the storage key.
-/

/-- Default bucket name, from the environment fallback in the source. -/
def BUCKET_NAME : String := "birds-detection-bucket"

/-- Default region, from the environment fallback in the source. -/
def REGION : String := "us-east-1"

/-- The https bucket base interpolated throughout the source. -/
def s3UrlBase : String := "https://" ++ BUCKET_NAME ++ ".s3." ++ REGION ++ ".amazonaws.com/"

/-- URL resolution of handle_delete_files, lines 705 to 710. -/
def resolveKey (url : String) : Option String :=
  if 2 ≤ (pySplit url s3UrlBase).length then
    some ((pySplit url s3UrlBase).getLastD url)
  else if strStartsWith url "s3://" then
    some ((pySplit url ("s3://" ++ BUCKET_NAME ++ "/")).getLastD url)
  else none

/-- One iteration of the deletion loop, lines 703 to 732: a failed blob
delete or a failed catalog-record delete continues with the next URL
without appending the key; the thumbnail delete attempt is logged only and
never affects the result. -/
def deleteStep (s3ok dbok : String → Bool) (deleted : List String) (url : String) : List String :=
  match resolveKey url with
  | none => deleted
  | some key =>
    if s3ok key then
      if dbok key then deleted ++ [key] else deleted
    else deleted

/-- handle_delete_files restricted to its observable output, the list of
deleted keys returned in the response body. -/
def handle_delete_files (s3ok dbok : String → Bool) (urls : List String) : List String :=
  urls.foldl (deleteStep s3ok dbok) []

theorem deleteLoop_eq (s3ok dbok : String → Bool) :
    ∀ (urls : List String) (acc : List String),
      urls.foldl (deleteStep s3ok dbok) acc =
        acc ++ (urls.filterMap resolveKey).filter (fun k => s3ok k && dbok k) := by
  intro urls
  induction urls with
  | nil => intro acc; simp
  | cons u rest ih =>
    intro acc
    rw [List.foldl_cons, ih]
    cases hr : resolveKey u with
    | none => simp [deleteStep, hr]
    | some key =>
      by_cases hs : s3ok key = true
      · by_cases hd : dbok key = true
        · simp [deleteStep, hr, hs, hd, List.append_assoc]
        · simp [deleteStep, hr, hs, hd]
      · simp [deleteStep, hr, hs]

/-- C1 counterexample: with a resolvable URL whose blob delete succeeds and
whose catalog-record delete fails, the returned list is empty, so the list
is not the set of keys successfully processed through blob deletion
regardless of the catalog-record delete. -/
theorem C1_counterexample :
    resolveKey "s3://birds-detection-bucket/k1" = some "k1" ∧
    (fun _ : String => true) "k1" = true ∧
    handle_delete_files (fun _ => true) (fun _ => false) ["s3://birds-detection-bucket/k1"] = [] := by
  refine ⟨by decide, rfl, by decide⟩

/-- C1 (amended): for every batch of URLs, the returned list of deleted
keys contains exactly the keys whose blob deletion and subsequent
catalog-record delete both succeeded; unresolvable URLs and per-URL
failures are skipped without aborting the rest of the batch. -/
theorem C1_amended_deleted_keys (s3ok dbok : String → Bool) (urls : List String) :
    handle_delete_files s3ok dbok urls =
      (urls.filterMap resolveKey).filter (fun k => s3ok k && dbok k) := by
  unfold handle_delete_files
  rw [deleteLoop_eq]
  simp

/-!
## Catalog records and store

DynamoDB items as the query and mutation handlers see them: the composite
key is (id, user_id), get is a point lookup, put is a full replace, and
queries run over a full scan.  Tag counts on stored records are compared
and added as integers by these handlers.
-/

/-- A catalog record. -/
structure Item where
  id : String
  user_id : String
  original_url : String
  thumbnail_url : String
  type : String
  tags : List (String × Int)
deriving DecidableEq

/-- Point lookup on the composite key. -/
def getItem (store : List Item) (key uid : String) : Option Item :=
  store.find? (fun it => it.id == key && it.user_id == uid)

/-- Full replace of the record with the same composite key, insert when
absent. -/
def putItem (store : List Item) (it : Item) : List Item :=
  if store.any (fun o => o.id == it.id && o.user_id == it.user_id) then
    store.map (fun o => if o.id == it.id && o.user_id == it.user_id then it else o)
  else store ++ [it]

/-- The record summary returned by the search handlers. -/
structure Summary where
  original_url : String
  thumbnail_url : String
  type : String
deriving DecidableEq

/-- Summary of a record, as appended by handle_search_by_tags. -/
def summaryOf (it : Item) : Summary :=
  { original_url := it.original_url, thumbnail_url := it.thumbnail_url, type := it.type }

/-- Outcome of a search request: a client error or a data list. -/
inductive SearchResult
  | clientError (msg : String)
  | ok (data : List Summary)
deriving DecidableEq

/-- One iteration of the scan loop of handle_search_by_tags, lines 312 to
320: a record matches when every queried tag is stored with at least the
queried count; both branches of the source append the same summary. -/
def searchStep (tags : List (String × Int)) (ms : List Summary) (it : Item) : List Summary :=
  if tags.all (fun p => decide (p.2 ≤ dget it.tags p.1 0)) then
    if it.type == "image" then ms ++ [summaryOf it] else ms ++ [summaryOf it]
  else ms

/-- handle_search_by_tags (lines 259 to 334) after the POST body parsed to
a tag threshold mapping: an empty mapping is rejected with a client error
before the scan. -/
def handle_search_by_tags (store : List Item) (tags : List (String × Int)) : SearchResult :=
  if tags.isEmpty then SearchResult.clientError "No tags provided"
  else SearchResult.ok (store.foldl (searchStep tags) [])

/-- Data list of a search outcome. -/
def searchData : SearchResult → List Summary
  | SearchResult.ok l => l
  | SearchResult.clientError _ => []

theorem searchStep_eq (tags : List (String × Int)) (ms : List Summary) (it : Item) :
    searchStep tags ms it =
      if tags.all (fun p => decide (p.2 ≤ dget it.tags p.1 0)) then ms ++ [summaryOf it]
      else ms := by
  unfold searchStep
  rw [ite_self]

theorem searchFold_mem (tags : List (String × Int)) (store : List Item) :
    ∀ (acc : List Summary) (s : Summary),
      s ∈ store.foldl (searchStep tags) acc ↔
        (s ∈ acc ∨ ∃ it, it ∈ store ∧ summaryOf it = s ∧ ∀ p ∈ tags, p.2 ≤ dget it.tags p.1 0) := by
  induction store with
  | nil => intro acc s; simp
  | cons x xs ih =>
    intro acc s
    rw [List.foldl_cons, ih, searchStep_eq]
    by_cases hx : (tags.all (fun p => decide (p.2 ≤ dget x.tags p.1 0))) = true
    · rw [if_pos hx]
      constructor
      · rintro (hs | ⟨it, hit, hsum, hall⟩)
        · rcases List.mem_append.mp hs with h1 | h2
          · exact Or.inl h1
          · right
            refine ⟨x, List.mem_cons_self x xs, (List.mem_singleton.mp h2).symm, ?_⟩
            intro p hp
            exact of_decide_eq_true (List.all_eq_true.mp hx p hp)
        · exact Or.inr ⟨it, List.mem_cons_of_mem x hit, hsum, hall⟩
      · rintro (hs | ⟨it, hit, hsum, hall⟩)
        · exact Or.inl (List.mem_append.mpr (Or.inl hs))
        · rcases List.mem_cons.mp hit with h1 | h2
          · subst h1
            exact Or.inl (List.mem_append.mpr (Or.inr (List.mem_singleton.mpr hsum.symm)))
          · exact Or.inr ⟨it, h2, hsum, hall⟩
    · rw [if_neg hx]
      constructor
      · rintro (hs | ⟨it, hit, hsum, hall⟩)
        · exact Or.inl hs
        · exact Or.inr ⟨it, List.mem_cons_of_mem x hit, hsum, hall⟩
      · rintro (hs | ⟨it, hit, hsum, hall⟩)
        · exact Or.inl hs
        · rcases List.mem_cons.mp hit with h1 | h2
          · subst h1
            exact absurd (List.all_eq_true.mpr (fun p hp => decide_eq_true (hall p hp))) hx
          · exact Or.inr ⟨it, h2, hsum, hall⟩

/-- C6: for every non-empty threshold-AND query, a catalog record is
included in the result of the tag search iff for every queried pair the
stored count of that tag, zero when absent, is at least the queried count;
an empty query is rejected with a client error rather than answered with an
empty result list. -/
theorem C6_threshold_and (store : List Item) (q : List (String × Int)) :
    (q = [] → handle_search_by_tags store q = SearchResult.clientError "No tags provided") ∧
    (q ≠ [] →
      (∃ l, handle_search_by_tags store q = SearchResult.ok l) ∧
      ∀ s : Summary, s ∈ searchData (handle_search_by_tags store q) ↔
        ∃ it, it ∈ store ∧ summaryOf it = s ∧ ∀ p ∈ q, p.2 ≤ dget it.tags p.1 0) := by
  constructor
  · intro hq
    subst hq
    rfl
  · intro hq
    have hne : q.isEmpty = false := by
      cases q
      · exact absurd rfl hq
      · rfl
    have hok : handle_search_by_tags store q = SearchResult.ok (store.foldl (searchStep q) []) := by
      unfold handle_search_by_tags
      rw [if_neg (by rw [hne]; exact Bool.false_ne_true)]
    refine ⟨⟨_, hok⟩, ?_⟩
    intro s
    rw [hok]
    show s ∈ store.foldl (searchStep q) [] ↔ _
    rw [searchFold_mem q store [] s]
    simp

/-- Closed witness for C6: the empty query is rejected, and on a one-record
catalog a satisfied threshold query returns the record summary. -/
theorem C6_threshold_and_witness :
    handle_search_by_tags [] [] = SearchResult.clientError "No tags provided" ∧
    Summary.mk "u1" "t1" "audio" ∈
      searchData (handle_search_by_tags [Item.mk "k" "u" "u1" "t1" "audio" [("crow", 2)]] [("crow", 1)]) := by
  constructor
  · exact (C6_threshold_and [] []).1 rfl
  · exact (((C6_threshold_and [Item.mk "k" "u" "u1" "t1" "audio" [("crow", 2)]] [("crow", 1)]).2
      (by decide)).2 (Summary.mk "u1" "t1" "audio")).mpr
      ⟨Item.mk "k" "u" "u1" "t1" "audio" [("crow", 2)], by decide, rfl, by decide⟩

/-!
## File-driven scan

handle_query_from_tags_file (src/lambda_tagging_function.py lines 511 to
597) parses the request body into a list of tag entries, each a mapping of
tag to count, then accumulates matching records over the full catalog
while threading a seen set of original URLs.
-/

/-- The full record summary returned by the file-driven scan, carrying the
complete current tag mapping of the matched record. -/
structure FullSummary where
  original_url : String
  thumbnail_url : String
  type : String
  tags : List (String × Int)
deriving DecidableEq

/-- Full summary of a record, as appended by handle_query_from_tags_file. -/
def fullSummaryOf (it : Item) : FullSummary :=
  { original_url := it.original_url, thumbnail_url := it.thumbnail_url,
    type := it.type, tags := it.tags }

/-- Innermost step of the scan loop, lines 563 to 574: a record whose
stored count for the requested tag reaches the requested count is
appended, unless its original URL was already seen. -/
def fsItemStep (tag : String) (count : Int) (a : List FullSummary × List String) (it : Item) :
    List FullSummary × List String :=
  if count ≤ dget it.tags tag 0 then
    if memStr it.original_url a.2 then a
    else (a.1 ++ [fullSummaryOf it], a.2 ++ [it.original_url])
  else a

/-- Scan of the full catalog for one parsed tag and count pair. -/
def fsPairStep (store : List Item) (a : List FullSummary × List String) (p : String × Int) :
    List FullSummary × List String :=
  store.foldl (fsItemStep p.1 p.2) a

/-- The match accumulation of handle_query_from_tags_file over the parsed
tag entries, projected to the returned matches list. -/
def fileScanMatches (store : List Item) (tag_list : List (List (String × Int))) :
    List FullSummary :=
  (tag_list.foldl (fun a entry => entry.foldl (fsPairStep store) a) ([], [])).1

/-- The loop invariant of the scan: the seen set is exactly the list of
original URLs of the collected matches, it has no duplicates, and every
collected summary is the full summary of some record of the store. -/
def GoodAcc (store : List Item) (a : List FullSummary × List String) : Prop :=
  a.2 = a.1.map FullSummary.original_url ∧ a.2.Nodup ∧
    ∀ s ∈ a.1, ∃ it, it ∈ store ∧ s = fullSummaryOf it

theorem memStr_iff (x : String) (l : List String) : memStr x l = true ↔ x ∈ l := by
  unfold memStr
  rw [List.any_eq_true]
  constructor
  · rintro ⟨y, hy, hxy⟩
    rw [← eq_of_beq hxy]
    exact hy
  · intro hx
    exact ⟨x, hx, by simp⟩

theorem foldl_preserve {α β : Type} (P : β → Prop) (g : β → α → β)
    (l : List α) (b : β) (hg : ∀ a ∈ l, ∀ x, P x → P (g x a)) (hb : P b) :
    P (List.foldl g b l) := by
  induction l generalizing b with
  | nil => exact hb
  | cons a rest ih =>
    rw [List.foldl_cons]
    exact ih (g b a)
      (fun a2 ha2 x hx => hg a2 (List.mem_cons_of_mem a ha2) x hx)
      (hg a (List.mem_cons_self a rest) b hb)

theorem fsItemStep_good (store : List Item) (tag : String) (count : Int)
    (a : List FullSummary × List String) (it : Item) (hit : it ∈ store)
    (h : GoodAcc store a) : GoodAcc store (fsItemStep tag count a it) := by
  unfold fsItemStep
  by_cases hc : count ≤ dget it.tags tag 0
  · rw [if_pos hc]
    by_cases hm : memStr it.original_url a.2 = true
    · rw [if_pos hm]; exact h
    · rw [if_neg hm]
      obtain ⟨h1, h2, h3⟩ := h
      have hnm : it.original_url ∉ a.2 := fun hmem => hm ((memStr_iff _ _).mpr hmem)
      refine ⟨?_, ?_, ?_⟩
      · show a.2 ++ [it.original_url] = (a.1 ++ [fullSummaryOf it]).map FullSummary.original_url
        rw [List.map_append, h1]
        rfl
      · refine List.nodup_append.mpr ⟨h2, List.nodup_singleton _, ?_⟩
        intro y hy hyx
        rw [List.mem_singleton.mp hyx] at hy
        exact hnm hy
      · intro s hs
        rcases List.mem_append.mp hs with hs1 | hs2
        · exact h3 s hs1
        · exact ⟨it, hit, List.mem_singleton.mp hs2⟩
  · rw [if_neg hc]; exact h

theorem fsItemStep_seen_mono (tag : String) (count : Int)
    (a : List FullSummary × List String) (it : Item) (u : String) (hu : u ∈ a.2) :
    u ∈ (fsItemStep tag count a it).2 := by
  unfold fsItemStep
  by_cases hc : count ≤ dget it.tags tag 0
  · rw [if_pos hc]
    by_cases hm : memStr it.original_url a.2 = true
    · rw [if_pos hm]; exact hu
    · rw [if_neg hm]; exact List.mem_append.mpr (Or.inl hu)
  · rw [if_neg hc]; exact hu

theorem fsItemStep_seen_self (tag : String) (count : Int)
    (a : List FullSummary × List String) (it : Item) (hc : count ≤ dget it.tags tag 0) :
    it.original_url ∈ (fsItemStep tag count a it).2 := by
  unfold fsItemStep
  rw [if_pos hc]
  by_cases hm : memStr it.original_url a.2 = true
  · rw [if_pos hm]; exact (memStr_iff _ _).mp hm
  · rw [if_neg hm]; exact List.mem_append.mpr (Or.inr (by simp))

theorem fsPairStep_good (store : List Item) (a : List FullSummary × List String)
    (p : String × Int) (h : GoodAcc store a) : GoodAcc store (fsPairStep store a p) :=
  foldl_preserve (GoodAcc store) (fsItemStep p.1 p.2) store a
    (fun it hit x hx => fsItemStep_good store p.1 p.2 x it hit hx) h

theorem fsPairStep_seen_mono (store : List Item) (a : List FullSummary × List String)
    (p : String × Int) (u : String) (hu : u ∈ a.2) : u ∈ (fsPairStep store a p).2 :=
  foldl_preserve (fun y => u ∈ y.2) (fsItemStep p.1 p.2) store a
    (fun it _ x hx => fsItemStep_seen_mono p.1 p.2 x it u hx) hu

theorem entryFold_seen_mono (store : List Item) (e : List (String × Int))
    (a : List FullSummary × List String) (u : String) (hu : u ∈ a.2) :
    u ∈ (e.foldl (fsPairStep store) a).2 :=
  foldl_preserve (fun y => u ∈ y.2) (fsPairStep store) e a
    (fun q _ x hx => fsPairStep_seen_mono store x q u hx) hu

theorem fsPairStep_seen_complete (p : String × Int) (store : List Item) :
    ∀ (a : List FullSummary × List String) (it : Item), it ∈ store →
      p.2 ≤ dget it.tags p.1 0 → it.original_url ∈ (fsPairStep store a p).2 := by
  induction store with
  | nil => intro a it hit; exact absurd hit (List.not_mem_nil it)
  | cons x xs ih =>
    intro a it hit hc
    show it.original_url ∈ ((x :: xs).foldl (fsItemStep p.1 p.2) a).2
    rw [List.foldl_cons]
    rcases List.mem_cons.mp hit with h1 | h2
    · subst h1
      exact foldl_preserve (fun y => it.original_url ∈ y.2) (fsItemStep p.1 p.2) xs _
        (fun a2 _ x2 hx2 => fsItemStep_seen_mono p.1 p.2 x2 a2 it.original_url hx2)
        (fsItemStep_seen_self p.1 p.2 a it hc)
    · exact ih (fsItemStep p.1 p.2 a x) it h2 hc

theorem fileScan_good (store : List Item) (tag_list : List (List (String × Int))) :
    GoodAcc store (tag_list.foldl (fun a entry => entry.foldl (fsPairStep store) a) ([], [])) := by
  refine foldl_preserve (GoodAcc store) _ tag_list ([], []) ?_ ?_
  · intro e _ x hx
    exact foldl_preserve (GoodAcc store) (fsPairStep store) e x
      (fun q _ z hz => fsPairStep_good store z q hz) hx
  · exact ⟨rfl, List.nodup_nil, fun s hs => absurd hs (List.not_mem_nil s)⟩

theorem fileScan_seen_complete (store : List Item) (tag_list : List (List (String × Int)))
    (it : Item) (hit : it ∈ store) (entry : List (String × Int)) (he : entry ∈ tag_list)
    (p : String × Int) (hp : p ∈ entry) (hc : p.2 ≤ dget it.tags p.1 0) :
    it.original_url ∈
      (tag_list.foldl (fun a entry => entry.foldl (fsPairStep store) a) ([], [])).2 := by
  rcases List.append_of_mem he with ⟨l1, l2, rfl⟩
  rw [List.foldl_append, List.foldl_cons]
  refine foldl_preserve (fun y => it.original_url ∈ y.2)
    (fun a entry => entry.foldl (fsPairStep store) a) l2 _
    (fun e _ x hx => entryFold_seen_mono store e x it.original_url hx) ?_
  rcases List.append_of_mem hp with ⟨e1, e2, rfl⟩
  rw [List.foldl_append, List.foldl_cons]
  refine entryFold_seen_mono store e2 _ it.original_url ?_
  exact fsPairStep_seen_complete p store _ it hit hc

/-- C8: for every file-driven scan over parsed tag entries, the result list
is deduplicated by original URL: no URL appears twice, every result entry
is the full summary of a catalog record including its complete current tag
mapping, and a record matching at least one requested pair appears exactly
once. -/
theorem C8_file_scan_dedup (store : List Item) (tag_list : List (List (String × Int))) :
    ((fileScanMatches store tag_list).map FullSummary.original_url).Nodup ∧
    (∀ s ∈ fileScanMatches store tag_list, ∃ it, it ∈ store ∧ s = fullSummaryOf it) ∧
    (∀ it, it ∈ store →
      (∃ entry ∈ tag_list, ∃ p ∈ entry, p.2 ≤ dget it.tags p.1 0) →
      ((fileScanMatches store tag_list).map FullSummary.original_url).count it.original_url
        = 1) := by
  obtain ⟨h1, h2, h3⟩ := fileScan_good store tag_list
  have hnd : ((fileScanMatches store tag_list).map FullSummary.original_url).Nodup := by
    unfold fileScanMatches
    rw [← h1]
    exact h2
  refine ⟨hnd, fun s hs => h3 s hs, ?_⟩
  rintro it hit ⟨entry, he, p, hp, hc⟩
  have hm : it.original_url ∈ (fileScanMatches store tag_list).map FullSummary.original_url := by
    unfold fileScanMatches
    rw [← h1]
    exact fileScan_seen_complete store tag_list it hit entry he p hp hc
  exact List.count_eq_one_of_mem hnd hm

/-- Closed witness for C8: a single record matching two different requested
tags appears exactly once in the result. -/
theorem C8_file_scan_dedup_witness :
    ((fileScanMatches [Item.mk "k" "u" "u1" "t1" "audio" [("crow", 2), ("owl", 1)]]
        [[("crow", 1)], [("owl", 1)]]).map FullSummary.original_url).count "u1" = 1 := by
  have h := (C8_file_scan_dedup [Item.mk "k" "u" "u1" "t1" "audio" [("crow", 2), ("owl", 1)]]
      [[("crow", 1)], [("owl", 1)]]).2.2
      (Item.mk "k" "u" "u1" "t1" "audio" [("crow", 2), ("owl", 1)]) (by decide)
      ⟨[("crow", 1)], by decide, ("crow", 1), by decide, by decide⟩
  simpa using h

/-!
## Mutation engine

handle_manual_tagging (src/lambda_tagging_function.py lines 762 to 836)
parses the delta strings into a dict, then for each object reference
resolves a storage key, fetches the record, updates its tags according to
the operation discriminator, and writes the full record back.  The state
threaded below also records the writes performed and the number of records
reached, which the HTTP response of the source never reports.
-/

/-- Storage key of an object reference, line 794: the text after the last
occurrence of the https bucket base. -/
def keyOfUrl (url : String) : String :=
  (pySplit url s3UrlBase).getLastD url

/-- Parsing of the tag delta strings, lines 781 to 788: entries without a
comma are ignored and a count that does not parse as an int skips the
entry. -/
def parseDeltas (tag_list : List String) : List (String × Int) :=
  tag_list.foldl (fun tags entry =>
    match splitFirstStr entry "," with
    | some (tag, count) =>
      match pyIntOfString (pyStrip count) with
      | some n => dinsert tags (pyStrip tag) n
      | none => tags
    | none => tags) []

/-- State threaded through the mutation loop: the evolving store, the
records written back, and the number of records reached. -/
structure MTState where
  store : List Item
  puts : List Item
  reached : Nat
deriving DecidableEq

/-- The ADD update, lines 803 to 805: merge counts into the current tags. -/
def addTags (deltas : List (String × Int)) (current_tags : List (String × Int)) :
    List (String × Int) :=
  deltas.foldl (fun ct p => dinsert ct p.1 (dget ct p.1 0 + p.2)) current_tags

/-- The REMOVE update, lines 806 to 809: delete each present delta key
entirely. -/
def removeTags (deltas : List (String × Int)) (current_tags : List (String × Int)) :
    List (String × Int) :=
  deltas.foldl (fun ct p => if dmem ct p.1 then dremove ct p.1 else ct) current_tags

/-- One iteration of the mutation loop, lines 793 to 812: unresolved
records are skipped, any other operation value than 1 and 0 leaves the
tags unchanged, and the record is written back in full. -/
def manualStep (deltas : List (String × Int)) (op : Int) (uid : String)
    (st : MTState) (url : String) : MTState :=
  match getItem st.store (keyOfUrl url) uid with
  | none => st
  | some item =>
    let current_tags := item.tags
    let newTags :=
      if op == 1 then addTags deltas current_tags
      else if op == 0 then removeTags deltas current_tags
      else current_tags
    let item2 := { item with tags := newTags }
    MTState.mk (putItem st.store item2) (st.puts ++ [item2]) (st.reached + 1)

/-- handle_manual_tagging after input validation. -/
def handle_manual_tagging (store : List Item) (uid : String) (urls : List String)
    (op : Int) (tag_list : List String) : MTState :=
  urls.foldl (manualStep (parseDeltas tag_list) op uid) (MTState.mk store [] 0)

/-- The HTTP response of handle_manual_tagging on its success path, lines
814 to 823: a constant status and message, independent of the loop
outcome. -/
def mtResponse : Nat × String := (200, "Tags updated successfully")

/-- C2 counterexample: two manual-tagging runs that reach different
numbers of records, one and zero, return the same constant success
response, so the result does not report the count of records reached. -/
theorem C2_counterexample :
    (handle_manual_tagging [Item.mk "k" "u" "u1" "t1" "audio" [("crow", 1)]] "u"
        ["https://birds-detection-bucket.s3.us-east-1.amazonaws.com/k"] 1 ["crow,2"]).reached
      = 1 ∧
    (handle_manual_tagging [] "u"
        ["https://birds-detection-bucket.s3.us-east-1.amazonaws.com/k"] 1 ["crow,2"]).reached
      = 0 ∧
    mtResponse = (200, "Tags updated successfully") := by
  refine ⟨by decide, by decide, rfl⟩

/-- C2 (amended): the manual-tagging mutation always responds with the
fixed success message and does not report the number of records reached;
object references resolving to no existing record are skipped without
error, and each reached record produces exactly one write. -/
theorem C2_amended_response (store : List Item) (uid : String) (urls : List String)
    (op : Int) (tag_list : List String) :
    mtResponse = (200, "Tags updated successfully") ∧
    (handle_manual_tagging store uid urls op tag_list).puts.length =
      (handle_manual_tagging store uid urls op tag_list).reached := by
  refine ⟨rfl, ?_⟩
  unfold handle_manual_tagging
  refine foldl_preserve (fun st => st.puts.length = st.reached) _ urls
    (MTState.mk store [] 0) ?_ rfl
  intro url _ st hst
  cases hgi : getItem st.store (keyOfUrl url) uid with
  | none => simpa [manualStep, hgi] using hst
  | some item => simp [manualStep, hgi, hst]

/-- C5 counterexample: a REMOVE mutation on a record whose only tag is the
removed one writes the record back with an empty tags mapping, so the
non-empty-tags invariant is not preserved by every mutation. -/
theorem C5_counterexample :
    (handle_manual_tagging [Item.mk "k" "u" "u1" "t1" "audio" [("sparrow", 3)]] "u"
        ["https://birds-detection-bucket.s3.us-east-1.amazonaws.com/k"] 0 ["sparrow,0"]).puts =
      [Item.mk "k" "u" "u1" "t1" "audio" []] := by decide

/-!
### Unknown operation values

A store is well formed when composite keys are pairwise distinct, which
DynamoDB guarantees for a table keyed by (id, user_id).
-/

/-- Pairwise distinct composite keys. -/
def StoreWF (store : List Item) : Prop :=
  store.Pairwise (fun a b => a.id ≠ b.id ∨ a.user_id ≠ b.user_id)

theorem eq_of_same_key_of_wf :
    ∀ (store : List Item), StoreWF store → ∀ (o it : Item), o ∈ store → it ∈ store →
      o.id = it.id → o.user_id = it.user_id → o = it := by
  intro store
  induction store with
  | nil => intro _ o it ho; exact absurd ho (List.not_mem_nil o)
  | cons x xs ih =>
    intro hwf o it ho hit hid huid
    have hp := List.pairwise_cons.mp hwf
    rcases List.mem_cons.mp ho with ho1 | ho2
    · rcases List.mem_cons.mp hit with hit1 | hit2
      · rw [ho1, hit1]
      · subst ho1
        rcases hp.1 it hit2 with h | h
        · exact absurd hid h
        · exact absurd huid h
    · rcases List.mem_cons.mp hit with hit1 | hit2
      · subst hit1
        rcases hp.1 o ho2 with h | h
        · exact absurd hid.symm h
        · exact absurd huid.symm h
      · exact ih hp.2 o it ho2 hit2 hid huid

theorem map_id_of_fix {α : Type} (f : α → α) :
    ∀ (l : List α), (∀ x ∈ l, f x = x) → l.map f = l := by
  intro l
  induction l with
  | nil => intro _; rfl
  | cons x xs ih =>
    intro h
    rw [List.map_cons, h x (List.mem_cons_self x xs),
      ih (fun y hy => h y (List.mem_cons_of_mem x hy))]

theorem putItem_self (store : List Item) (hwf : StoreWF store) (it : Item)
    (hit : it ∈ store) : putItem store it = store := by
  unfold putItem
  have hany : store.any (fun o => o.id == it.id && o.user_id == it.user_id) = true :=
    List.any_eq_true.mpr ⟨it, hit, by simp⟩
  rw [if_pos hany]
  apply map_id_of_fix
  intro o ho
  by_cases hk : (o.id == it.id && o.user_id == it.user_id) = true
  · rw [if_pos hk]
    have hk2 : (o.id == it.id) = true ∧ (o.user_id == it.user_id) = true := by
      simpa using hk
    exact (eq_of_same_key_of_wf store hwf o it ho hit (eq_of_beq hk2.1) (eq_of_beq hk2.2)).symm
  · rw [if_neg hk]

theorem manualLoop_other_op (deltas : List (String × Int)) (op : Int) (uid : String)
    (hb1 : (op == 1) = false) (hb0 : (op == 0) = false)
    (store : List Item) (hwf : StoreWF store) :
    ∀ (urls : List String) (st : MTState), st.store = store →
      (urls.foldl (manualStep deltas op uid) st).store = store ∧
      (urls.foldl (manualStep deltas op uid) st).puts =
        st.puts ++ urls.filterMap (fun url => getItem store (keyOfUrl url) uid) := by
  intro urls
  induction urls with
  | nil => intro st hst; exact ⟨hst, by simp⟩
  | cons url rest ih =>
    intro st hst
    rw [List.foldl_cons, List.filterMap_cons]
    cases hgi : getItem store (keyOfUrl url) uid with
    | none =>
      have hstep : manualStep deltas op uid st url = st := by
        unfold manualStep
        rw [hst, hgi]
      rw [hstep]
      exact ih st hst
    | some item =>
      have hitem : item ∈ store := List.mem_of_find?_eq_some hgi
      obtain ⟨iid, iuid, iou, itu, ity, itags⟩ := item
      have hstep : manualStep deltas op uid st url =
          MTState.mk store (st.puts ++ [Item.mk iid iuid iou itu ity itags])
            (st.reached + 1) := by
        unfold manualStep
        rw [hst, hgi]
        simp [hb1, hb0, putItem_self store hwf (Item.mk iid iuid iou itu ity itags) hitem]
      rw [hstep]
      obtain ⟨ha, hb⟩ := ih (MTState.mk store
        (st.puts ++ [Item.mk iid iuid iou itu ity itags]) (st.reached + 1)) rfl
      refine ⟨ha, ?_⟩
      rw [hb]
      simp

/-- C10: for every manual-tagging request whose operation discriminator is
neither ADD (1) nor REMOVE (0), each resolved record is written back to the
store in full with its tags mapping unchanged, the store is left as it was,
and the request reports success. -/
theorem C10_unknown_operation (store : List Item) (hwf : StoreWF store) (uid : String)
    (urls : List String) (op : Int) (tag_list : List String)
    (h1 : op ≠ 1) (h0 : op ≠ 0) :
    (handle_manual_tagging store uid urls op tag_list).store = store ∧
    (handle_manual_tagging store uid urls op tag_list).puts =
      urls.filterMap (fun url => getItem store (keyOfUrl url) uid) ∧
    mtResponse = (200, "Tags updated successfully") := by
  have hb1 : (op == 1) = false := by simp [h1]
  have hb0 : (op == 0) = false := by simp [h0]
  obtain ⟨ha, hb⟩ := manualLoop_other_op (parseDeltas tag_list) op uid hb1 hb0 store hwf
    urls (MTState.mk store [] 0) rfl
  exact ⟨ha, by simpa using hb, rfl⟩

/-- Closed witness for C10 at a one-record store and operation value 2: the
resolved record is rewritten unchanged and the store does not change. -/
theorem C10_unknown_operation_witness :
    (handle_manual_tagging [Item.mk "k" "u" "u1" "t1" "audio" [("crow", 1)]] "u"
        ["https://birds-detection-bucket.s3.us-east-1.amazonaws.com/k"] 2 ["crow,5"]).store =
      [Item.mk "k" "u" "u1" "t1" "audio" [("crow", 1)]] ∧
    (handle_manual_tagging [Item.mk "k" "u" "u1" "t1" "audio" [("crow", 1)]] "u"
        ["https://birds-detection-bucket.s3.us-east-1.amazonaws.com/k"] 2 ["crow,5"]).puts =
      ["https://birds-detection-bucket.s3.us-east-1.amazonaws.com/k"].filterMap
        (fun url => getItem [Item.mk "k" "u" "u1" "t1" "audio" [("crow", 1)]] (keyOfUrl url) "u") ∧
    mtResponse = (200, "Tags updated successfully") :=
  C10_unknown_operation [Item.mk "k" "u" "u1" "t1" "audio" [("crow", 1)]]
    (by simp [StoreWF]) "u"
    ["https://birds-detection-bucket.s3.us-east-1.amazonaws.com/k"] 2 ["crow,5"]
    (by decide) (by decide)

/-!
## Ingestion pipeline

handle_trigger_s3 (src/lambda_tagging_function.py lines 173 to 256)
processes each record of an S3 event after a successful download: it
classifies the file type from the key, recovers the owner from object
metadata, runs detection and sanitization with sentinel fallbacks,
computes the new species for the notification, and writes a catalog record
only for audio objects.
-/

/-- A catalog record as written by the ingestion pipeline; its tag values
are the sanitized raw detector values. -/
structure IngestItem where
  id : String
  user_id : String
  original_url : String
  type : String
  thumbnail_url : String
  tags : List (String × PyVal)
deriving DecidableEq

/-- One record of the S3 trigger event together with the external effects
observed while processing it: whether the metadata head call succeeded,
the two metadata entries, and the tag mapping returned by the detection
service. -/
structure S3Rec where
  key : String
  headOk : Bool
  metaUserId : Option String
  metaUserDashId : Option String
  apiTags : List (PyVal × PyVal)
deriving DecidableEq

/-- File type classification, lines 178 to 180: audio when the key starts
with the audio path or ends in .wav or .mp3, empty otherwise. -/
def fileTypeOf (key : String) : String :=
  if strStartsWith key "audio/" || strEndsWith key ".wav" || strEndsWith key ".mp3" then "audio"
  else ""

/-- Owner recovery from object metadata, lines 182 to 191: a failed head
call defaults to UnknownUser; otherwise the user_id entry is used unless
it is missing or empty, falling back to the user-id entry or the
default. -/
def userIdOf (r : S3Rec) : String :=
  if r.headOk then
    let v1 := r.metaUserId.getD "UnknownUser"
    if v1.toList.isEmpty then r.metaUserDashId.getD "UnknownUser" else v1
  else "UnknownUser"

/-- detect_birds_tags, lines 88 to 114: only audio files are posted to the
detection service; any other file type returns an empty mapping, as does a
failed request, modelled by empty apiTags. -/
def detect_birds_tags (fileType : String) (apiTags : List (PyVal × PyVal)) :
    List (PyVal × PyVal) :=
  if fileType == "audio" then apiTags else []

/-- The sentinel raw tag mapping substituted for an empty detection
result. -/
def sentinelRaw : List (PyVal × PyVal) := [(PyVal.str "unknown_bird", PyVal.intv 1)]

/-- The sentinel in sanitized form. -/
def sentinelTags : List (String × PyVal) := [("unknown_bird", PyVal.intv 1)]

/-- The tag pipeline of handle_trigger_s3, lines 196 to 203: detect, fall
back to the sentinel when the result is empty, then sanitize. -/
def pipelineTags (r : S3Rec) : List (String × PyVal) :=
  sanitize_tags (
    let tags0 := detect_birds_tags (fileTypeOf r.key) r.apiTags
    if tags0.isEmpty then sentinelRaw else tags0)

/-- The lower-cased seen set of all existing tag keys across the catalog,
lines 206 to 211. -/
def allExistingTags (store : List IngestItem) : List String :=
  store.foldl (fun acc it => acc ++ it.tags.map (fun p => pyLower p.1)) []

/-- The new-species list of line 213: sanitized tag keys whose lower-cased
form is absent from the seen set. -/
def newSpecies (store : List IngestItem) (stags : List (String × PyVal)) : List String :=
  (stags.map Prod.fst).filter (fun t => !(memStr (pyLower t) (allExistingTags store)))

/-- The original URL interpolated at line 236. -/
def originalUrlOf (key : String) : String := s3UrlBase ++ key

/-- Point lookup on the ingestion store. -/
def getIngest (store : List IngestItem) (key uid : String) : Option IngestItem :=
  store.find? (fun it => it.id == key && it.user_id == uid)

/-- Full replace on the ingestion store. -/
def putIngest (store : List IngestItem) (it : IngestItem) : List IngestItem :=
  if store.any (fun o => o.id == it.id && o.user_id == it.user_id) then
    store.map (fun o => if o.id == it.id && o.user_id == it.user_id then it else o)
  else store ++ [it]

/-- Processing of one S3 record after a successful download, lines 173 to
245: compute the tags and the new-species list, then store a record only
when the file type is audio.  Returns the new store, the record put when
one was written, and the new-species list of the notification path. -/
def processRecord (store : List IngestItem) (r : S3Rec) :
    List IngestItem × Option IngestItem × List String :=
  let tags := pipelineTags r
  let news := newSpecies store tags
  if fileTypeOf r.key == "audio" then
    let item := IngestItem.mk r.key (userIdOf r) (originalUrlOf r.key) "audio" "NO_URL"
      (if tags.isEmpty then sentinelTags else tags)
    (putIngest store item, some item, news)
  else (store, none, news)

/-- handle_trigger_s3 over the event records, collecting the records
written. -/
def handle_trigger_s3 (store : List IngestItem) (records : List S3Rec) :
    List IngestItem × List IngestItem :=
  records.foldl (fun acc r =>
    ((processRecord acc.1 r).1, acc.2 ++ (processRecord acc.1 r).2.1.toList)) (store, [])

theorem find_map_replace (it : IngestItem) :
    ∀ (store : List IngestItem),
      store.any (fun o => o.id == it.id && o.user_id == it.user_id) = true →
      (store.map (fun o => if o.id == it.id && o.user_id == it.user_id then it else o)).find?
        (fun o => o.id == it.id && o.user_id == it.user_id) = some it := by
  intro store
  induction store with
  | nil => intro h; simp at h
  | cons x xs ih =>
    intro h
    rw [List.map_cons]
    by_cases hx : (x.id == it.id && x.user_id == it.user_id) = true
    · rw [if_pos hx]
      exact List.find?_cons_of_pos _ (by simp)
    · rw [if_neg hx]
      rw [List.find?_cons_of_neg]
      · apply ih
        rcases List.any_eq_true.mp h with ⟨o, ho, hpo⟩
        rcases List.mem_cons.mp ho with h1 | h2
        · subst h1; exact absurd hpo hx
        · exact List.any_eq_true.mpr ⟨o, h2, hpo⟩
      · exact hx

theorem getIngest_putIngest (store : List IngestItem) (it : IngestItem) :
    getIngest (putIngest store it) it.id it.user_id = some it := by
  unfold getIngest putIngest
  by_cases h : store.any (fun o => o.id == it.id && o.user_id == it.user_id) = true
  · rw [if_pos h]
    exact find_map_replace it store h
  · rw [if_neg h]
    rw [List.find?_append]
    have h1 : store.find? (fun o => o.id == it.id && o.user_id == it.user_id) = none := by
      rw [List.find?_eq_none]
      intro o ho hpo
      exact h (List.any_eq_true.mpr ⟨o, ho, hpo⟩)
    rw [h1]
    simp

/-- C3 counterexample: an image object, classified by its key, never
reaches the Stored state: the ingestion run writes no record for it, so
not every landed object of a supported media kind is stored. -/
theorem C3_counterexample :
    fileTypeOf "images/original/a.jpg" = "" ∧
    (handle_trigger_s3 []
      [S3Rec.mk "images/original/a.jpg" true (some "u") none
        [(PyVal.str "crow", PyVal.intv 2)]]).2 = [] := by
  refine ⟨by decide, by decide⟩

/-- C3 (amended): only objects classified as audio reach the Stored state.
For those, a MediaRecord keyed by the object key is built with the owner
recovered from object metadata, defaulting to the unknown sentinel, and
written with an unconditional overwrite: looking the key up after the
write always yields the new record.  Objects of any other kind leave the
store untouched and write nothing. -/
theorem C3_amended_stored (store : List IngestItem) (r : S3Rec) :
    (fileTypeOf r.key ≠ "audio" →
      processRecord store r = (store, none, newSpecies store (pipelineTags r))) ∧
    (fileTypeOf r.key = "audio" →
      ∃ item : IngestItem,
        processRecord store r =
          (putIngest store item, some item, newSpecies store (pipelineTags r)) ∧
        item.id = r.key ∧ item.user_id = userIdOf r ∧ item.type = "audio" ∧
        item.tags = (if (pipelineTags r).isEmpty then sentinelTags else pipelineTags r) ∧
        (r.headOk = false → item.user_id = "UnknownUser") ∧
        getIngest (putIngest store item) r.key (userIdOf r) = some item) := by
  constructor
  · intro hne
    have hb : (fileTypeOf r.key == "audio") = false := beq_eq_false_iff_ne.mpr hne
    simp only [processRecord]
    rw [hb]
    rfl
  · intro heq
    have hb : (fileTypeOf r.key == "audio") = true := beq_iff_eq.mpr heq
    refine ⟨IngestItem.mk r.key (userIdOf r) (originalUrlOf r.key) "audio" "NO_URL"
      (if (pipelineTags r).isEmpty then sentinelTags else pipelineTags r),
      ?_, rfl, rfl, rfl, rfl, ?_, ?_⟩
    · simp only [processRecord]
      rw [hb]
      rfl
    · intro hho
      show userIdOf r = "UnknownUser"
      unfold userIdOf
      rw [hho]
      rfl
    · exact getIngest_putIngest store _

/-- Closed witness for C3 at a concrete audio record. -/
theorem C3_amended_stored_witness :
    ∃ item : IngestItem,
      processRecord []
          (S3Rec.mk "audio/a.wav" true (some "u") none [(PyVal.str "sparrow", PyVal.intv 3)]) =
        (putIngest [] item, some item,
          newSpecies []
            (pipelineTags
              (S3Rec.mk "audio/a.wav" true (some "u") none
                [(PyVal.str "sparrow", PyVal.intv 3)]))) ∧
      item.id = "audio/a.wav" ∧
      item.user_id =
        userIdOf (S3Rec.mk "audio/a.wav" true (some "u") none
          [(PyVal.str "sparrow", PyVal.intv 3)]) ∧
      item.type = "audio" ∧
      item.tags =
        (if (pipelineTags (S3Rec.mk "audio/a.wav" true (some "u") none
              [(PyVal.str "sparrow", PyVal.intv 3)])).isEmpty then sentinelTags
         else pipelineTags (S3Rec.mk "audio/a.wav" true (some "u") none
              [(PyVal.str "sparrow", PyVal.intv 3)])) ∧
      ((S3Rec.mk "audio/a.wav" true (some "u") none
          [(PyVal.str "sparrow", PyVal.intv 3)]).headOk = false →
        item.user_id = "UnknownUser") ∧
      getIngest (putIngest [] item) "audio/a.wav"
          (userIdOf (S3Rec.mk "audio/a.wav" true (some "u") none
            [(PyVal.str "sparrow", PyVal.intv 3)])) = some item :=
  (C3_amended_stored []
    (S3Rec.mk "audio/a.wav" true (some "u") none [(PyVal.str "sparrow", PyVal.intv 3)])).2
    (by decide)

/-!
## Novel species detection
-/

theorem mem_foldl_append {α β : Type} (f : α → List β) :
    ∀ (l : List α) (acc : List β) (x : β),
      x ∈ l.foldl (fun a it => a ++ f it) acc ↔ x ∈ acc ∨ ∃ it, it ∈ l ∧ x ∈ f it := by
  intro l
  induction l with
  | nil => intro acc x; simp
  | cons y ys ih =>
    intro acc x
    rw [List.foldl_cons, ih]
    constructor
    · rintro (h1 | ⟨it, hit, hx⟩)
      · rcases List.mem_append.mp h1 with ha | hb
        · exact Or.inl ha
        · exact Or.inr ⟨y, List.mem_cons_self y ys, hb⟩
      · exact Or.inr ⟨it, List.mem_cons_of_mem y hit, hx⟩
    · rintro (h1 | ⟨it, hit, hx⟩)
      · exact Or.inl (List.mem_append.mpr (Or.inl h1))
      · rcases List.mem_cons.mp hit with he | hm
        · subst he
          exact Or.inl (List.mem_append.mpr (Or.inr hx))
        · exact Or.inr ⟨it, hm, hx⟩

theorem mem_allExistingTags (store : List IngestItem) (x : String) :
    x ∈ allExistingTags store ↔ ∃ it, it ∈ store ∧ ∃ p, p ∈ it.tags ∧ x = pyLower p.1 := by
  unfold allExistingTags
  rw [mem_foldl_append (fun it => it.tags.map (fun p => pyLower p.1)) store [] x]
  constructor
  · rintro (h | ⟨it, hit, hx⟩)
    · exact absurd h (List.not_mem_nil x)
    · rcases List.mem_map.mp hx with ⟨p, hp, hpx⟩
      exact ⟨it, hit, p, hp, hpx.symm⟩
  · rintro ⟨it, hit, p, hp, hx⟩
    exact Or.inr ⟨it, hit, List.mem_map.mpr ⟨p, hp, hx.symm⟩⟩

/-- C7: novel-species detection is case-insensitive: a sanitized tag of an
ingestion is reported as a new species iff its lower-cased form is absent
from the lower-cased tag keys of every record already in the catalog. -/
theorem C7_novel_species (store : List IngestItem) (r : S3Rec) (t : String) :
    t ∈ newSpecies store (pipelineTags r) ↔
      (t ∈ (pipelineTags r).map Prod.fst ∧
        ∀ it, it ∈ store → ∀ p, p ∈ it.tags → pyLower t ≠ pyLower p.1) := by
  unfold newSpecies
  simp only [List.mem_filter]
  constructor
  · rintro ⟨h1, h2⟩
    refine ⟨h1, ?_⟩
    intro it hit p hp heq
    have h3 : memStr (pyLower t) (allExistingTags store) = true :=
      (memStr_iff _ _).mpr ((mem_allExistingTags store (pyLower t)).mpr ⟨it, hit, p, hp, heq⟩)
    rw [h3] at h2
    exact absurd h2 (by decide)
  · rintro ⟨h1, h2⟩
    refine ⟨h1, ?_⟩
    cases hm : memStr (pyLower t) (allExistingTags store)
    · rfl
    · rcases (mem_allExistingTags store (pyLower t)).mp ((memStr_iff _ _).mp hm) with
        ⟨it, hit, p, hp, heq⟩
      exact absurd heq (h2 it hit p hp)

/-- Closed witness for C7, the particular instance of the claim: a catalog
already containing Crow prevents a newly detected crow from being reported
as new. -/
theorem C7_novel_species_witness :
    "crow" ∉ newSpecies [IngestItem.mk "k0" "u" "url0" "audio" "NO_URL" [("Crow", PyVal.intv 1)]]
      (pipelineTags (S3Rec.mk "audio/a.wav" true (some "u") none
        [(PyVal.str "crow", PyVal.intv 2)])) := by
  intro h
  have h2 := (C7_novel_species
    [IngestItem.mk "k0" "u" "url0" "audio" "NO_URL" [("Crow", PyVal.intv 1)]]
    (S3Rec.mk "audio/a.wav" true (some "u") none [(PyVal.str "crow", PyVal.intv 2)])
    "crow").mp h
  exact h2.2 (IngestItem.mk "k0" "u" "url0" "audio" "NO_URL" [("Crow", PyVal.intv 1)])
    (by decide) ("Crow", PyVal.intv 1) (by decide) (by decide)

/-!
## The non-empty tags invariant
-/

theorem dinsert_ne_nil {α : Type} (d : List (String × α)) (k : String) (v : α) :
    dinsert d k v ≠ [] := by
  unfold dinsert
  by_cases h : d.any (fun p => p.1 == k) = true
  · rw [if_pos h]
    intro hc
    rw [List.map_eq_nil_iff.mp hc] at h
    simp at h
  · rw [if_neg h]
    simp

theorem addTags_ne_nil (deltas : List (String × Int)) (ct : List (String × Int))
    (h : ct ≠ []) : addTags deltas ct ≠ [] := by
  unfold addTags
  refine foldl_preserve (fun d => d ≠ []) _ deltas ct ?_ h
  intro p _ d _
  exact dinsert_ne_nil d p.1 (dget d p.1 0 + p.2)

theorem processRecord_put_tags_ne_nil (store : List IngestItem) (r : S3Rec) (it : IngestItem)
    (h : (processRecord store r).2.1 = some it) : it.tags ≠ [] := by
  simp only [processRecord] at h
  by_cases hb : (fileTypeOf r.key == "audio") = true
  · rw [if_pos hb] at h
    have h2 : IngestItem.mk r.key (userIdOf r) (originalUrlOf r.key) "audio" "NO_URL"
        (if (pipelineTags r).isEmpty then sentinelTags else pipelineTags r) = it :=
      Option.some.inj h
    rw [← h2]
    show (if (pipelineTags r).isEmpty then sentinelTags else pipelineTags r) ≠ []
    by_cases he : (pipelineTags r).isEmpty = true
    · rw [if_pos he]
      simp [sentinelTags]
    · rw [if_neg he]
      intro hc
      rw [hc] at he
      exact he rfl
  · rw [if_neg hb] at h
    simp at h

theorem trigger_put_tags_ne_nil (store : List IngestItem) (records : List S3Rec) :
    ∀ it ∈ (handle_trigger_s3 store records).2, it.tags ≠ [] := by
  unfold handle_trigger_s3
  refine foldl_preserve
    (fun (acc : List IngestItem × List IngestItem) => ∀ it ∈ acc.2, it.tags ≠ [])
    (fun acc r => ((processRecord acc.1 r).1, acc.2 ++ (processRecord acc.1 r).2.1.toList))
    records (store, []) ?_ ?_
  · intro r _ acc hacc it hit
    rcases List.mem_append.mp hit with h1 | h2
    · exact hacc it h1
    · cases hpr : (processRecord acc.1 r).2.1 with
      | none =>
        rw [hpr] at h2
        simp at h2
      | some j =>
        rw [hpr] at h2
        have hj : it = j := by simpa using h2
        subst hj
        exact processRecord_put_tags_ne_nil acc.1 r it hpr
  · intro it hit
    exact absurd hit (List.not_mem_nil it)

theorem mem_putItem (store : List Item) (it x : Item) (hx : x ∈ putItem store it) :
    x = it ∨ x ∈ store := by
  unfold putItem at hx
  by_cases h : store.any (fun o => o.id == it.id && o.user_id == it.user_id) = true
  · rw [if_pos h] at hx
    rcases List.mem_map.mp hx with ⟨o, ho, hfo⟩
    by_cases hk : (o.id == it.id && o.user_id == it.user_id) = true
    · rw [if_pos hk] at hfo
      exact Or.inl hfo.symm
    · rw [if_neg hk] at hfo
      exact Or.inr (hfo ▸ ho)
  · rw [if_neg h] at hx
    rcases List.mem_append.mp hx with h1 | h2
    · exact Or.inr h1
    · exact Or.inl (List.mem_singleton.mp h2)

theorem manualStep_add (deltas : List (String × Int)) (uid : String) (st : MTState)
    (url : String) :
    manualStep deltas 1 uid st url = st ∨
    ∃ item, getItem st.store (keyOfUrl url) uid = some item ∧
      manualStep deltas 1 uid st url =
        MTState.mk (putItem st.store { item with tags := addTags deltas item.tags })
          (st.puts ++ [{ item with tags := addTags deltas item.tags }]) (st.reached + 1) := by
  cases hgi : getItem st.store (keyOfUrl url) uid with
  | none =>
    left
    unfold manualStep
    rw [hgi]
  | some item =>
    right
    refine ⟨item, rfl, ?_⟩
    unfold manualStep
    rw [hgi]
    rfl

theorem manual_add_nonempty (store : List Item) (uid : String) (urls : List String)
    (tag_list : List String) (hstore : ∀ it ∈ store, it.tags ≠ []) :
    ∀ p ∈ (handle_manual_tagging store uid urls 1 tag_list).puts, p.tags ≠ [] := by
  unfold handle_manual_tagging
  refine (foldl_preserve
    (fun st => (∀ it ∈ st.store, it.tags ≠ []) ∧ (∀ p ∈ st.puts, p.tags ≠ []))
    (manualStep (parseDeltas tag_list) 1 uid) urls (MTState.mk store [] 0) ?_
    ⟨hstore, fun p hp => absurd hp (List.not_mem_nil p)⟩).2
  intro url _ st hst
  rcases manualStep_add (parseDeltas tag_list) uid st url with h1 | ⟨item, hgi, h2⟩
  · rw [h1]
    exact hst
  · rw [h2]
    have hmem : item ∈ st.store := List.mem_of_find?_eq_some hgi
    have hne : addTags (parseDeltas tag_list) item.tags ≠ [] :=
      addTags_ne_nil _ _ (hst.1 item hmem)
    constructor
    · intro x hx
      rcases mem_putItem st.store _ x hx with hx1 | hx2
      · rw [hx1]
        exact hne
      · exact hst.1 x hx2
    · intro p hp
      rcases List.mem_append.mp hp with hp1 | hp2
      · exact hst.2 p hp1
      · rw [List.mem_singleton.mp hp2]
        exact hne

/-- C5 (amended): every record written by the ingestion pipeline has a
non-empty tags mapping, at minimum the sentinel, and ADD mutations
preserve the invariant; REMOVE mutations do not preserve it and can write
a record with an empty mapping. -/
theorem C5_amended_nonempty :
    (∀ (store : List IngestItem) (records : List S3Rec),
      ∀ it ∈ (handle_trigger_s3 store records).2, it.tags ≠ []) ∧
    (∀ (store : List Item) (uid : String) (urls : List String) (tag_list : List String),
      (∀ it ∈ store, it.tags ≠ []) →
      ∀ p ∈ (handle_manual_tagging store uid urls 1 tag_list).puts, p.tags ≠ []) :=
  ⟨trigger_put_tags_ne_nil, manual_add_nonempty⟩

/-- Closed witness for C5 at a concrete ingestion and a concrete ADD
mutation. -/
theorem C5_amended_nonempty_witness :
    (∀ it ∈ (handle_trigger_s3 [] [S3Rec.mk "audio/a.wav" true (some "u") none
        [(PyVal.str "sparrow", PyVal.intv 3)]]).2, it.tags ≠ []) ∧
    (∀ p ∈ (handle_manual_tagging [Item.mk "k" "u" "u1" "t1" "audio" [("crow", 1)]] "u"
        ["https://birds-detection-bucket.s3.us-east-1.amazonaws.com/k"] 1 ["crow,2"]).puts,
      p.tags ≠ []) := by
  constructor
  · exact C5_amended_nonempty.1 [] [S3Rec.mk "audio/a.wav" true (some "u") none
      [(PyVal.str "sparrow", PyVal.intv 3)]]
  · exact C5_amended_nonempty.2 [Item.mk "k" "u" "u1" "t1" "audio" [("crow", 1)]] "u"
      ["https://birds-detection-bucket.s3.us-east-1.amazonaws.com/k"] ["crow,2"] (by decide)

end BirdTag
